import Mathlib

/-!
Shallow embedding of `softwarepower.py`: an integrity-tagged payload builder
(CRC-32 tag), an AES-128-ECB codec wrapper with PKCS#7-style padding, and a
power-measurement harness. Byte strings are modelled as `List Nat`; Python
exceptions are modelled with `Except`; the sampled clock values consumed by the
harness are explicit rational inputs.

The AES block permutation itself lives in the external `Crypto.Cipher.AES`
library, so the codec is parameterised by an abstract keyed block function;
the library's own input validation (key-size check in `AES.new`, 16-byte
alignment check of raw ECB) is embedded explicitly, following the library's
documented behaviour.
-/

namespace SoftwarePower

/-- One shift round of the reflected CRC-32 update (polynomial 0xEDB88320). -/
def crcShiftRound (c : Nat) : Nat :=
  if c % 2 = 1 then Nat.xor (c / 2) 0xEDB88320 else c / 2

/-- Iterates `crcShiftRound` the given number of times. -/
def crcShiftRounds : Nat → Nat → Nat
  | 0, c => c
  | n + 1, c => crcShiftRounds n (crcShiftRound c)

/-- `binascii.crc32(data)`: standard reflected CRC-32 over the byte list. -/
def binascii_crc32 (data : List Nat) : Nat :=
  Nat.xor (data.foldl (fun c b => crcShiftRounds 8 (Nat.xor c b)) 0xFFFFFFFF) 0xFFFFFFFF

/-- `compute_crc32(data)` from the source: `binascii.crc32(data) & 0xFFFFFFFF`. -/
def compute_crc32 (data : List Nat) : Nat :=
  Nat.land (binascii_crc32 data) 0xFFFFFFFF

/-- `n.to_bytes(4, "big")`: the 4-byte big-endian encoding of `n`. -/
def to_bytes_be_4 (n : Nat) : List Nat :=
  [n / 16777216 % 256, n / 65536 % 256, n / 256 % 256, n % 256]

/-- The payload builder from the main program:
`data_block = user_text + crc_val.to_bytes(4, "big")`. -/
def build (plaintext : List Nat) : List Nat :=
  plaintext ++ to_bytes_be_4 (compute_crc32 plaintext)

/-- The tag stripper from the main program: `decrypted[:-4]`.  Python's slice
is total: for inputs shorter than 4 bytes it returns the empty byte string. -/
def strip (payload : List Nat) : List Nat :=
  payload.take (payload.length - 4)

/-- `pad(data)` from the source: `pad_len = 16 - (len(data) % 16)`, then
append `pad_len` bytes each of value `pad_len`. -/
def pad (data : List Nat) : List Nat :=
  data ++ List.replicate (16 - data.length % 16) (16 - data.length % 16)

/-- Failure taxonomy for the codec path.  `indexOutOfRange` models Python's
`IndexError` from `data[-1]` on an empty byte string; `invalidKeyLength`
models the `ValueError` raised by `AES.new` for an unsupported key size;
`invalidCiphertextLength` models the `ValueError` raised by raw ECB on data
not aligned to the 16-byte block boundary.  `corruptPadding` and
`malformedPayload` are named by the design document; the code as written
never raises them. -/
inductive CryptoError
  | invalidKeyLength
  | invalidCiphertextLength
  | corruptPadding
  | malformedPayload
  | indexOutOfRange
  deriving DecidableEq

/-- `unpad(data)` from the source: `pad_len = data[-1]; return data[:-pad_len]`.
`data[-1]` raises `IndexError` on empty input.  Python's `data[:-pad_len]`
returns `data[:0] = b""` when `pad_len` is `0` (since `-0 == 0`) and clamps to
the empty string when `pad_len` exceeds the length. -/
def unpad (data : List Nat) : Except CryptoError (List Nat) :=
  match data.getLast? with
  | none => Except.error CryptoError.indexOutOfRange
  | some padLen =>
      Except.ok (if padLen = 0 then [] else data.take (data.length - padLen))

/-- Fuel-indexed splitting of a byte list into 16-byte chunks (the fuel is an
upper bound on the list length, making the recursion structural). -/
def chunksAux : Nat → List Nat → List (List Nat)
  | 0, _ => []
  | _ + 1, [] => []
  | fuel + 1, a :: rest => (a :: rest).take 16 :: chunksAux fuel ((a :: rest).drop 16)

/-- Splits a byte list into successive 16-byte chunks, as raw ECB mode does. -/
def chunks16 (l : List Nat) : List (List Nat) :=
  chunksAux l.length l

/-- Raw ECB processing from the AES library: reject data not aligned to the
16-byte block boundary, otherwise apply the keyed block permutation to each
16-byte block independently and concatenate. -/
def ecbApply (f : List Nat → List Nat) (data : List Nat) :
    Except CryptoError (List Nat) :=
  if data.length % 16 = 0 then Except.ok ((chunks16 data).map f).flatten
  else Except.error CryptoError.invalidCiphertextLength

/-- The key-size validation performed by `AES.new`: AES accepts 16-, 24- or
32-byte keys (AES-128/192/256) and raises `ValueError` otherwise. -/
def aes_new_key_ok (key : List Nat) : Bool :=
  key.length = 16 || key.length = 24 || key.length = 32

/-- `aes_encrypt(plaintext, key)` from the source:
`AES.new(key, AES.MODE_ECB).encrypt(pad(plaintext))`, with the block
permutation `E` (keyed by `key`) supplied abstractly for the external AES
primitive. -/
def aes_encrypt (E : List Nat → List Nat → List Nat)
    (plaintext key : List Nat) : Except CryptoError (List Nat) :=
  if aes_new_key_ok key then ecbApply (E key) (pad plaintext)
  else Except.error CryptoError.invalidKeyLength

/-- `aes_decrypt(ciphertext, key)` from the source:
`unpad(AES.new(key, AES.MODE_ECB).decrypt(ciphertext))`, with the inverse
block permutation `D` supplied abstractly for the external AES primitive. -/
def aes_decrypt (D : List Nat → List Nat → List Nat)
    (ciphertext key : List Nat) : Except CryptoError (List Nat) :=
  if aes_new_key_ok key then (ecbApply (D key) ciphertext).bind unpad
  else Except.error CryptoError.invalidKeyLength

/-- The four clock samples taken around the measured loop, in program order:
`cpu_before`, `t_before`, `t_after`, `cpu_after`.  Modelled as exact
rationals. -/
structure TimingSample where
  cpuBefore : ℚ
  tBefore : ℚ
  tAfter : ℚ
  cpuAfter : ℚ

/-- Failure taxonomy for the harness path.  `zeroDivisionError` models
Python's `ZeroDivisionError` (raised by `cpu_used / wall` when `wall == 0`
and by `wall / NUM_ITERATIONS` when the iteration count is `0`);
`unboundLocalOutput` models the `UnboundLocalError` that `return output`
would raise had the loop never run.  `zeroIterationsRequested` and
`degenerateTiming` are named by the design document; the code as written
never raises them. -/
inductive MeasureError
  | zeroDivisionError
  | unboundLocalOutput
  | zeroIterationsRequested
  | degenerateTiming
  deriving DecidableEq

/-- The call trace of `for _ in range(n): output = func(data, key)`: every
iteration invokes the operation on the same `(data, key)` pair. -/
def loopCalls (n : Nat) (data : α) (key : κ) : List (α × κ) :=
  List.replicate n (data, key)

/-- The successive outputs produced by the loop body `output = func(data, key)`. -/
def loopOutputs (n : Nat) (func : α → κ → β) (data : α) (key : κ) : List β :=
  (loopCalls n data key).map (fun c => func c.1 c.2)

/-- `CPU_TDP_WATTS = 15` from the source. -/
def CPU_TDP_WATTS : ℚ := 15

/-- `NUM_ITERATIONS = 1000` from the source. -/
def NUM_ITERATIONS : Nat := 1000

/-- `measure_power_loop(func, data, key)` from the source, with the
module-level globals `NUM_ITERATIONS` and `CPU_TDP_WATTS` passed explicitly
as `n` and `tdpWatts`, and the sampled clock values passed as `ts`.  The loop
keeps only the final output; `output` stays unbound when the loop never runs.
The derived metrics follow the source line by line; a zero divisor raises
`ZeroDivisionError` in Python, which the explicit checks model (in source
order: `cpu_used / wall` first, then `wall / NUM_ITERATIONS`). -/
def measure_power_loop (n : Nat) (tdpWatts : ℚ) (func : α → κ → β)
    (data : α) (key : κ) (ts : TimingSample) :
    Except MeasureError (β × ℚ × ℚ × ℚ × ℚ) :=
  let output? := (loopOutputs n func data key).getLast?
  let wall := ts.tAfter - ts.tBefore
  let cpuUsed := ts.cpuAfter - ts.cpuBefore
  if wall = 0 then Except.error MeasureError.zeroDivisionError
  else
    let cpuPercent := cpuUsed / wall * 100
    if n = 0 then Except.error MeasureError.zeroDivisionError
    else
      let avgTime := wall / (n : ℚ)
      let avgPower := cpuPercent / 100 * tdpWatts
      let avgEnergy := avgPower * avgTime
      match output? with
      | none => Except.error MeasureError.unboundLocalOutput
      | some output => Except.ok (output, cpuPercent, avgTime, avgPower, avgEnergy)

/-! ### Chunking lemmas -/

theorem chunksAux_fuel :
    ∀ (f₁ f₂ : Nat) (l : List Nat), l.length ≤ f₁ → l.length ≤ f₂ →
      chunksAux f₁ l = chunksAux f₂ l := by
  intro f₁
  induction f₁ with
  | zero =>
    intro f₂ l h₁ _
    have hl : l = [] := List.eq_nil_of_length_eq_zero (Nat.le_zero.mp h₁)
    subst hl
    cases f₂ <;> rfl
  | succ f ih =>
    intro f₂ l h₁ h₂
    cases l with
    | nil => cases f₂ <;> rfl
    | cons a rest =>
      cases f₂ with
      | zero => simp at h₂
      | succ f₂' =>
        simp only [chunksAux]
        congr 1
        apply ih
        · simp only [List.length_drop, List.length_cons] at h₁ ⊢
          omega
        · simp only [List.length_drop, List.length_cons] at h₂ ⊢
          omega

theorem chunks16_nil : chunks16 [] = [] := rfl

theorem chunks16_append16 (c l : List Nat) (hc : c.length = 16) :
    chunks16 (c ++ l) = c :: chunks16 l := by
  cases c with
  | nil => simp at hc
  | cons a c' =>
    unfold chunks16
    rw [show ((a :: c') ++ l).length = (15 + l.length) + 1 by
      simp only [List.length_append, List.length_cons] at hc ⊢; omega]
    simp only [List.cons_append, chunksAux]
    congr 1
    · show List.take 16 ((a :: c') ++ l) = a :: c'
      exact List.take_left' hc
    · show chunksAux (15 + l.length) (List.drop 16 ((a :: c') ++ l)) = chunks16 l
      rw [List.drop_left' hc]
      exact chunksAux_fuel _ _ l (by omega) (Nat.le_refl _)

theorem aligned_rec_aux (P : List Nat → Prop) (h0 : P [])
    (hstep : ∀ c l, c.length = 16 → l.length % 16 = 0 → P l → P (c ++ l)) :
    ∀ (n : Nat) (l : List Nat), l.length = 16 * n → P l := by
  intro n
  induction n with
  | zero =>
    intro l h
    have hl : l = [] := List.eq_nil_of_length_eq_zero (by omega)
    subst hl
    exact h0
  | succ m ih =>
    intro l h
    have hTake : (l.take 16).length = 16 := by
      simp only [List.length_take]; omega
    have hDrop : (l.drop 16).length = 16 * m := by
      simp only [List.length_drop]; omega
    have hP := hstep (l.take 16) (l.drop 16) hTake (by omega) (ih _ hDrop)
    rwa [List.take_append_drop] at hP

theorem aligned_rec (P : List Nat → Prop) (h0 : P [])
    (hstep : ∀ c l, c.length = 16 → l.length % 16 = 0 → P l → P (c ++ l)) :
    ∀ l : List Nat, l.length % 16 = 0 → P l :=
  fun l hl => aligned_rec_aux P h0 hstep (l.length / 16) l (by omega)

theorem chunks16_all16 :
    ∀ l : List Nat, l.length % 16 = 0 → ∀ c ∈ chunks16 l, c.length = 16 := by
  refine aligned_rec (fun l => ∀ c ∈ chunks16 l, c.length = 16) ?_ ?_
  · intro c hc; simp [chunks16, chunksAux] at hc
  · intro c l hc _ ih d hd
    rw [chunks16_append16 c l hc] at hd
    rcases List.mem_cons.mp hd with rfl | hd
    · exact hc
    · exact ih d hd

theorem flatten_chunks16 :
    ∀ l : List Nat, l.length % 16 = 0 → (chunks16 l).flatten = l := by
  refine aligned_rec (fun l => (chunks16 l).flatten = l) ?_ ?_
  · rfl
  · intro c l hc _ ih
    rw [chunks16_append16 c l hc, List.flatten_cons, ih]

theorem chunks16_flatten :
    ∀ cs : List (List Nat), (∀ c ∈ cs, c.length = 16) →
      chunks16 cs.flatten = cs := by
  intro cs
  induction cs with
  | nil => intro _; rfl
  | cons c cs ih =>
    intro h
    rw [List.flatten_cons, chunks16_append16 c _ (h c (List.mem_cons_self c cs)),
      ih (fun d hd => h d (List.mem_cons_of_mem c hd))]

theorem length_flatten_16 (cs : List (List Nat)) (h : ∀ c ∈ cs, c.length = 16) :
    cs.flatten.length = 16 * cs.length := by
  induction cs with
  | nil => rfl
  | cons c cs ih =>
    rw [List.flatten_cons, List.length_append, List.length_cons,
      h c (List.mem_cons_self c cs), ih (fun d hd => h d (List.mem_cons_of_mem c hd))]
    ring

theorem chunks16_count :
    ∀ l : List Nat, l.length % 16 = 0 → (chunks16 l).length = l.length / 16 := by
  refine aligned_rec (fun l => (chunks16 l).length = l.length / 16) ?_ ?_
  · rfl
  · intro c l hc _ ih
    rw [chunks16_append16 c l hc, List.length_cons, ih, List.length_append, hc]
    omega

/-! ### Padding lemmas -/

theorem length_pad (d : List Nat) :
    (pad d).length = d.length + (16 - d.length % 16) := by
  simp [pad]

theorem pad_length_mod (d : List Nat) : (pad d).length % 16 = 0 := by
  rw [length_pad]; omega

theorem getLast?_replicate_of_pos (n : Nat) (x : α) (h : 0 < n) :
    (List.replicate n x).getLast? = some x := by
  rw [List.getLast?_replicate, if_neg (by omega)]

theorem unpad_pad (d : List Nat) : unpad (pad d) = Except.ok d := by
  have hpos : 0 < 16 - d.length % 16 := by omega
  have hlast : (pad d).getLast? = some (16 - d.length % 16) := by
    rw [pad, List.getLast?_append, getLast?_replicate_of_pos _ _ hpos]
    rfl
  rw [unpad, hlast]
  show Except.ok (if 16 - d.length % 16 = 0 then []
      else List.take ((pad d).length - (16 - d.length % 16)) (pad d)) = Except.ok d
  rw [if_neg (by omega), length_pad,
    show d.length + (16 - d.length % 16) - (16 - d.length % 16) = d.length by omega,
    pad, List.take_left' rfl]

/-! ### Codec helper lemmas -/

theorem key16_ok (key : List Nat) (hk : key.length = 16) :
    aes_new_key_ok key = true := by
  simp [aes_new_key_ok, hk]

theorem aes_encrypt_eq (E : List Nat → List Nat → List Nat)
    (p key : List Nat) (hk : aes_new_key_ok key = true) :
    aes_encrypt E p key = Except.ok ((chunks16 (pad p)).map (E key)).flatten := by
  rw [aes_encrypt, if_pos hk, ecbApply, if_pos (pad_length_mod p)]

theorem encrypt_blocks_all16 (E : List Nat → List Nat → List Nat)
    (p key : List Nat) (hE : ∀ b : List Nat, b.length = 16 → (E key b).length = 16) :
    ∀ c ∈ (chunks16 (pad p)).map (E key), c.length = 16 := by
  intro c hc
  rcases List.mem_map.mp hc with ⟨b, hb, rfl⟩
  exact hE b (chunks16_all16 _ (pad_length_mod p) b hb)

theorem decrypt_of_encrypt (E D : List Nat → List Nat → List Nat)
    (key p : List Nat) (hk : key.length = 16)
    (hE : ∀ b : List Nat, b.length = 16 → (E key b).length = 16)
    (hD : ∀ b : List Nat, b.length = 16 → D key (E key b) = b) :
    (aes_encrypt E p key).bind (fun ct => aes_decrypt D ct key) = Except.ok p := by
  have hkb := key16_ok key hk
  rw [aes_encrypt_eq E p key hkb]
  show aes_decrypt D ((chunks16 (pad p)).map (E key)).flatten key = Except.ok p
  have hall := encrypt_blocks_all16 E p key hE
  have hctlen : (((chunks16 (pad p)).map (E key)).flatten).length % 16 = 0 := by
    rw [length_flatten_16 _ hall]; omega
  rw [aes_decrypt, if_pos hkb, ecbApply, if_pos hctlen, chunks16_flatten _ hall]
  have hmap : ((chunks16 (pad p)).map (E key)).map (D key) = chunks16 (pad p) := by
    rw [List.map_map]
    have hpt : ∀ b ∈ chunks16 (pad p), (D key ∘ E key) b = id b :=
      fun b hb => hD b (chunks16_all16 _ (pad_length_mod p) b hb)
    rw [List.map_congr_left hpt, List.map_id]
  rw [hmap, flatten_chunks16 _ (pad_length_mod p)]
  show unpad (pad p) = Except.ok p
  exact unpad_pad p

/-! ### Harness helper lemmas -/

theorem loopOutputs_getLast (n : Nat) (func : α → κ → β) (data : α) (key : κ)
    (hn : n ≠ 0) :
    (loopOutputs n func data key).getLast? = some (func data key) := by
  rw [loopOutputs, loopCalls, List.map_replicate,
    getLast?_replicate_of_pos _ _ (Nat.pos_of_ne_zero hn)]

theorem measure_power_loop_eq_ok (n : Nat) (tdpWatts : ℚ) (func : α → κ → β)
    (data : α) (key : κ) (ts : TimingSample)
    (hn : n ≠ 0) (hw : ts.tAfter - ts.tBefore ≠ 0) :
    measure_power_loop n tdpWatts func data key ts =
      Except.ok (func data key,
        (ts.cpuAfter - ts.cpuBefore) / (ts.tAfter - ts.tBefore) * 100,
        (ts.tAfter - ts.tBefore) / (n : ℚ),
        (ts.cpuAfter - ts.cpuBefore) / (ts.tAfter - ts.tBefore) * 100 / 100 * tdpWatts,
        (ts.cpuAfter - ts.cpuBefore) / (ts.tAfter - ts.tBefore) * 100 / 100 * tdpWatts *
          ((ts.tAfter - ts.tBefore) / (n : ℚ))) := by
  rw [measure_power_loop]
  simp only [loopOutputs_getLast n func data key hn, if_neg hw, if_neg hn]

theorem strip_build (p : List Nat) : strip (build p) = p := by
  have h4 : (to_bytes_be_4 (compute_crc32 p)).length = 4 := rfl
  rw [strip, build, List.length_append, h4,
    show p.length + 4 - 4 = p.length from by omega, List.take_left' rfl]

/-! ### Claim theorems -/

/-- C1: for every byte sequence `p` and 16-byte key, stripping the trailing 4
checksum bytes from the decryption of the encryption of `build p` returns
exactly `p`, given that the keyed AES block permutation maps 16-byte blocks
to 16-byte blocks and that AES decryption inverts AES encryption blockwise. -/
theorem round_trip_strip_decrypt_encrypt
    (E D : List Nat → List Nat → List Nat) (key p : List Nat)
    (hk : key.length = 16)
    (hE : ∀ b : List Nat, b.length = 16 → (E key b).length = 16)
    (hD : ∀ b : List Nat, b.length = 16 → D key (E key b) = b) :
    ((aes_encrypt E (build p) key).bind (fun ct => aes_decrypt D ct key)).map strip
      = Except.ok p := by
  rw [decrypt_of_encrypt E D key (build p) hk hE hD]
  show Except.ok (strip (build p)) = Except.ok p
  rw [strip_build]

theorem round_trip_witness :
    ((aes_encrypt (fun _ b => b) (build [104, 105]) (List.replicate 16 0)).bind
        (fun ct => aes_decrypt (fun _ b => b) ct (List.replicate 16 0))).map strip
      = Except.ok [104, 105] :=
  round_trip_strip_decrypt_encrypt (fun _ b => b) (fun _ b => b)
    (List.replicate 16 0) [104, 105] (by simp) (fun _ h => h) (fun _ _ => rfl)

/-- C2: for every payload `p` and 16-byte key, the ciphertext produced by
`aes_encrypt` has length `(p.length / 16 + 1) * 16`, which is a multiple of
16 and at least `p.length + 1`, given that the keyed AES block permutation
preserves the 16-byte block length. -/
theorem encrypt_length_formula
    (E : List Nat → List Nat → List Nat) (key p : List Nat)
    (hk : key.length = 16)
    (hE : ∀ b : List Nat, b.length = 16 → (E key b).length = 16) :
    (aes_encrypt E p key).map List.length = Except.ok ((p.length / 16 + 1) * 16) ∧
      ((p.length / 16 + 1) * 16) % 16 = 0 ∧
      p.length + 1 ≤ (p.length / 16 + 1) * 16 := by
  have hlen : (((chunks16 (pad p)).map (E key)).flatten).length
      = (p.length / 16 + 1) * 16 := by
    rw [length_flatten_16 _ (encrypt_blocks_all16 E p key hE), List.length_map,
      chunks16_count _ (pad_length_mod p), length_pad]
    omega
  refine ⟨?_, by omega, by omega⟩
  rw [aes_encrypt_eq E p key (key16_ok key hk)]
  show Except.ok (((chunks16 (pad p)).map (E key)).flatten).length
      = Except.ok ((p.length / 16 + 1) * 16)
  rw [hlen]

theorem encrypt_length_formula_witness :
    (aes_encrypt (fun _ b => b) [1, 2, 3] (List.replicate 16 0)).map List.length
        = Except.ok (([1, 2, 3].length / 16 + 1) * 16) ∧
      (([1, 2, 3].length / 16 + 1) * 16) % 16 = 0 ∧
      [1, 2, 3].length + 1 ≤ ([1, 2, 3].length / 16 + 1) * 16 :=
  encrypt_length_formula (fun _ b => b) (List.replicate 16 0) [1, 2, 3]
    (by simp) (fun _ h => h)

/-- C3 counterexample: a ciphertext whose blockwise decryption ends in the
pad-length byte `0` (here: sixteen zero bytes under the identity block
permutation) does not fail with `CorruptPadding`; `aes_decrypt` silently
returns the empty byte string. -/
theorem unpad_zero_counterexample :
    aes_decrypt (fun _ b => b) (List.replicate 16 0) (List.replicate 16 0)
        = Except.ok [] ∧
      aes_decrypt (fun _ b => b) (List.replicate 16 0) (List.replicate 16 0)
        ≠ Except.error CryptoError.corruptPadding := by
  have h1 : aes_decrypt (fun _ b => b) (List.replicate 16 0) (List.replicate 16 0)
      = Except.ok [] := rfl
  refine ⟨h1, ?_⟩
  rw [h1]
  exact fun h => Except.noConfusion h

/-- C3 (amended): `unpad` performs no validation.  When the blockwise
decryption of an aligned ciphertext ends in a pad-length byte that is `0` or
at least the decrypted length, `aes_decrypt` silently returns the empty byte
string instead of failing. -/
theorem unpad_degenerate_silent
    (D : List Nat → List Nat → List Nat) (key ct : List Nat)
    (hk : key.length = 16) (hal : ct.length % 16 = 0) (v : Nat)
    (hv : (((chunks16 ct).map (D key)).flatten).getLast? = some v)
    (hdeg : v = 0 ∨ (((chunks16 ct).map (D key)).flatten).length ≤ v) :
    aes_decrypt D ct key = Except.ok [] := by
  rw [aes_decrypt, if_pos (key16_ok key hk), ecbApply, if_pos hal]
  show unpad (((chunks16 ct).map (D key)).flatten) = Except.ok []
  rw [unpad, hv]
  show Except.ok (if v = 0 then []
      else List.take ((((chunks16 ct).map (D key)).flatten).length - v)
        (((chunks16 ct).map (D key)).flatten)) = Except.ok []
  by_cases h0 : v = 0
  · rw [if_pos h0]
  · rw [if_neg h0]
    rcases hdeg with rfl | hle
    · exact absurd rfl h0
    · rw [Nat.sub_eq_zero_of_le hle, List.take_zero]

theorem unpad_degenerate_silent_witness :
    aes_decrypt (fun _ b => b) (List.replicate 32 0) (List.replicate 16 0)
      = Except.ok [] :=
  unpad_degenerate_silent (fun _ b => b) (List.replicate 16 0)
    (List.replicate 32 0) (by simp) (by simp) 0 rfl (Or.inl rfl)

/-- C4 counterexample: with an iteration count of `0` the harness performs
zero operation calls but fails with a division-by-zero error (from
`wall / NUM_ITERATIONS`), not with `ZeroIterationsRequested`. -/
theorem measure_zero_iterations_counterexample :
    measure_power_loop 0 15 (fun (x : Nat) (_ : List Nat) => x) 1 []
        ⟨0, 0, 1, 1⟩ = Except.error MeasureError.zeroDivisionError ∧
      measure_power_loop 0 15 (fun (x : Nat) (_ : List Nat) => x) 1 []
        ⟨0, 0, 1, 1⟩ ≠ Except.error MeasureError.zeroIterationsRequested ∧
      loopCalls 0 (1 : Nat) ([] : List Nat) = [] := by
  have h1 : measure_power_loop 0 15 (fun (x : Nat) (_ : List Nat) => x) 1 []
      ⟨0, 0, 1, 1⟩ = Except.error MeasureError.zeroDivisionError := by
    simp only [measure_power_loop]
    norm_num
  refine ⟨h1, ?_, rfl⟩
  rw [h1]
  exact fun h => Except.noConfusion h (fun hh => MeasureError.noConfusion hh)

/-- C4 (amended): the harness has no iteration-count validation.  With an
iteration count of `0` it performs zero operation calls and fails with a
division-by-zero error (either divisor `wall` or divisor `NUM_ITERATIONS`),
never with `ZeroIterationsRequested`. -/
theorem measure_zero_iterations (f : α → κ → β) (data : α) (key : κ)
    (tdp : ℚ) (ts : TimingSample) :
    measure_power_loop 0 tdp f data key ts
        = Except.error MeasureError.zeroDivisionError ∧
      loopCalls 0 data key = [] := by
  refine ⟨?_, rfl⟩
  simp only [measure_power_loop]
  by_cases hw : ts.tAfter - ts.tBefore = 0
  · rw [if_pos hw]
  · rw [if_neg hw]
    simp

/-- C5 counterexample: on a 3-byte payload, the tag stripper does not fail
with `MalformedPayload`; it silently returns the empty byte string. -/
theorem strip_short_counterexample : strip [0, 0, 0] = [] := rfl

/-- C5 (amended): for payloads of length at least 4, `strip` returns all but
the last 4 bytes; for shorter payloads it silently returns the empty byte
string (Python's `[:-4]` slice never fails). -/
theorem strip_behavior (p : List Nat) :
    (4 ≤ p.length → (strip p).length = p.length - 4 ∧
      strip p ++ p.drop (p.length - 4) = p) ∧
    (p.length < 4 → strip p = []) := by
  refine ⟨fun h4 => ⟨?_, ?_⟩, fun hlt => ?_⟩
  · rw [strip, List.length_take]
    omega
  · rw [strip, List.take_append_drop]
  · rw [strip, show p.length - 4 = 0 from by omega, List.take_zero]

theorem strip_behavior_witness :
    (strip [1, 2, 3, 4, 5]).length = 1 ∧ strip [9] = [] :=
  ⟨(by decide : (5 : Nat) - 4 = 1) ▸ ((strip_behavior [1, 2, 3, 4, 5]).1 (by decide)).1,
    (strip_behavior [9]).2 (by decide)⟩

/-- C6: for every measurement run with positive wall-clock delta and a
positive iteration count, the returned metrics satisfy exactly
`cpu_percent = cpu_used / wall * 100`, `avg_time = wall / iterations`,
`avg_power = cpu_percent / 100 * tdp_watts` and
`avg_energy = avg_power * avg_time`, over exact rational arithmetic on the
sampled clock values. -/
theorem measure_metrics_exact (f : α → κ → β) (data : α) (key : κ)
    (n : Nat) (tdp : ℚ) (ts : TimingSample)
    (hn : 0 < n) (hw : 0 < ts.tAfter - ts.tBefore) :
    measure_power_loop n tdp f data key ts =
      Except.ok (f data key,
        (ts.cpuAfter - ts.cpuBefore) / (ts.tAfter - ts.tBefore) * 100,
        (ts.tAfter - ts.tBefore) / (n : ℚ),
        (ts.cpuAfter - ts.cpuBefore) / (ts.tAfter - ts.tBefore) * 100 / 100 * tdp,
        (ts.cpuAfter - ts.cpuBefore) / (ts.tAfter - ts.tBefore) * 100 / 100 * tdp *
          ((ts.tAfter - ts.tBefore) / (n : ℚ))) :=
  measure_power_loop_eq_ok n tdp f data key ts hn.ne' hw.ne'

theorem measure_metrics_exact_witness :
    measure_power_loop 2 15 (fun (x : Nat) (_ : List Nat) => x + 1) 3 []
        ⟨0, 0, 1, 1⟩ =
      Except.ok (3 + 1, ((1 : ℚ) - 0) / ((1 : ℚ) - 0) * 100,
        ((1 : ℚ) - 0) / ((2 : Nat) : ℚ),
        ((1 : ℚ) - 0) / ((1 : ℚ) - 0) * 100 / 100 * 15,
        ((1 : ℚ) - 0) / ((1 : ℚ) - 0) * 100 / 100 * 15 *
          (((1 : ℚ) - 0) / ((2 : Nat) : ℚ))) :=
  measure_metrics_exact (fun (x : Nat) (_ : List Nat) => x + 1) 3 [] 2 15
    ⟨0, 0, 1, 1⟩ (by decide) (by norm_num)

/-- C7 counterexample: the empty ciphertext has length `0`, which is not a
positive multiple of 16, yet `aes_decrypt` does not fail with
`InvalidCiphertextLength`: the alignment check passes (`0 % 16 == 0`) and
the failure surfaces later as an index error in `unpad`. -/
theorem decrypt_empty_counterexample :
    aes_decrypt (fun _ b => b) [] (List.replicate 16 0)
        = Except.error CryptoError.indexOutOfRange ∧
      aes_decrypt (fun _ b => b) [] (List.replicate 16 0)
        ≠ Except.error CryptoError.invalidCiphertextLength := by
  have h1 : aes_decrypt (fun _ b => b) [] (List.replicate 16 0)
      = Except.error CryptoError.indexOutOfRange := rfl
  refine ⟨h1, ?_⟩
  rw [h1]
  exact fun h => Except.noConfusion h (fun hh => CryptoError.noConfusion hh)

/-- C7 (amended): for every ciphertext whose length is not a multiple of 16
and every 16-byte key, `aes_decrypt` fails with `InvalidCiphertextLength`
before any block decryption (the result does not depend on the block
permutation `D`); the empty ciphertext instead passes the alignment check
and fails with an index error during unpadding. -/
theorem decrypt_unaligned_fails
    (D : List Nat → List Nat → List Nat) (ct key : List Nat)
    (hk : key.length = 16) (hlen : ct.length % 16 ≠ 0) :
    aes_decrypt D ct key = Except.error CryptoError.invalidCiphertextLength := by
  rw [aes_decrypt, if_pos (key16_ok key hk), ecbApply, if_neg hlen]
  rfl

theorem decrypt_unaligned_fails_witness :
    aes_decrypt (fun _ b => b) [0] (List.replicate 16 0)
      = Except.error CryptoError.invalidCiphertextLength :=
  decrypt_unaligned_fails (fun _ b => b) [0] (List.replicate 16 0)
    (by simp) (by decide)

/-- C8 counterexample: a 24-byte key is not rejected: `AES.new` accepts 16-,
24- and 32-byte keys, so `aes_encrypt` under a 24-byte key succeeds instead
of failing with `InvalidKeyLength`. -/
theorem key24_accepted_counterexample :
    aes_encrypt (fun _ b => b) [] (List.replicate 24 0)
        = Except.ok (List.replicate 16 16) ∧
      aes_encrypt (fun _ b => b) [] (List.replicate 24 0)
        ≠ Except.error CryptoError.invalidKeyLength := by
  have h1 : aes_encrypt (fun _ b => b) [] (List.replicate 24 0)
      = Except.ok (List.replicate 16 16) := rfl
  refine ⟨h1, ?_⟩
  rw [h1]
  exact fun h => Except.noConfusion h

/-- C8 (amended): `aes_encrypt` and `aes_decrypt` fail with
`InvalidKeyLength` exactly when the key length is not 16, 24 or 32 bytes;
keys of 24 or 32 bytes are accepted by the AES constructor (AES-192/256). -/
theorem invalid_key_length_fails
    (E D : List Nat → List Nat → List Nat) (p ct key : List Nat)
    (hk : key.length ≠ 16 ∧ key.length ≠ 24 ∧ key.length ≠ 32) :
    aes_encrypt E p key = Except.error CryptoError.invalidKeyLength ∧
      aes_decrypt D ct key = Except.error CryptoError.invalidKeyLength := by
  have hkb : aes_new_key_ok key = false := by
    simp [aes_new_key_ok, hk.1, hk.2.1, hk.2.2]
  refine ⟨?_, ?_⟩ <;> simp [aes_encrypt, aes_decrypt, hkb]

theorem invalid_key_length_fails_witness :
    aes_encrypt (fun _ b => b) [] [1, 2, 3]
        = Except.error CryptoError.invalidKeyLength ∧
      aes_decrypt (fun _ b => b) [] [1, 2, 3]
        = Except.error CryptoError.invalidKeyLength :=
  invalid_key_length_fails (fun _ b => b) (fun _ b => b) [] [] [1, 2, 3]
    ⟨by decide, by decide, by decide⟩

/-- C9: for every positive iteration count the harness invokes the supplied
operation exactly `n` times, every invocation on the same `(input, key)`
pair, and (whenever the wall-clock delta is nonzero, so the run completes)
the output component of the result is the value of the final invocation,
which for the pure operation `f` equals `f data key`. -/
theorem measure_call_trace (f : α → κ → β) (data : α) (key : κ)
    (n : Nat) (tdp : ℚ) (ts : TimingSample) (hn : 0 < n) :
    (loopCalls n data key).length = n ∧
      loopCalls n data key = List.replicate n (data, key) ∧
      (ts.tAfter - ts.tBefore ≠ 0 →
        (measure_power_loop n tdp f data key ts).map (fun r => r.1) =
          Except.ok (f data key)) := by
  refine ⟨by simp [loopCalls], rfl, fun hw => ?_⟩
  rw [measure_power_loop_eq_ok n tdp f data key ts hn.ne' hw]
  rfl

theorem measure_call_trace_witness :
    (loopCalls 3 (5 : Nat) (7 : Nat)).length = 3 ∧
      (measure_power_loop 3 15 (fun (x : Nat) (_ : Nat) => x * 2) 5 7
          ⟨0, 0, 1, 1⟩).map (fun r => r.1) = Except.ok (5 * 2) :=
  ⟨(measure_call_trace (fun (x : Nat) (_ : Nat) => x * 2) 5 7 3 15
      ⟨0, 0, 1, 1⟩ (by decide)).1,
    (measure_call_trace (fun (x : Nat) (_ : Nat) => x * 2) 5 7 3 15
      ⟨0, 0, 1, 1⟩ (by decide)).2.2 (by norm_num)⟩

/-- C10: for every measurement run with positive wall-clock delta and a
positive iteration count, the returned `avg_energy` equals
`cpu_used * tdp_watts / iterations` over exact rational arithmetic: the
wall-clock duration cancels out of the energy estimate. -/
theorem avg_energy_cancels_wall (f : α → κ → β) (data : α) (key : κ)
    (n : Nat) (tdp : ℚ) (ts : TimingSample)
    (hn : 0 < n) (hw : 0 < ts.tAfter - ts.tBefore) :
    (measure_power_loop n tdp f data key ts).map (fun r => r.2.2.2.2) =
      Except.ok ((ts.cpuAfter - ts.cpuBefore) * tdp / (n : ℚ)) := by
  rw [measure_power_loop_eq_ok n tdp f data key ts hn.ne' hw.ne']
  show Except.ok ((ts.cpuAfter - ts.cpuBefore) / (ts.tAfter - ts.tBefore) * 100
      / 100 * tdp * ((ts.tAfter - ts.tBefore) / (n : ℚ)))
    = Except.ok ((ts.cpuAfter - ts.cpuBefore) * tdp / (n : ℚ))
  have hwne : ts.tAfter - ts.tBefore ≠ 0 := hw.ne'
  have hnne : (n : ℚ) ≠ 0 := Nat.cast_ne_zero.mpr hn.ne'
  congr 1
  field_simp
  ring

theorem avg_energy_cancels_wall_witness :
    (measure_power_loop 2 15 (fun (x : Nat) (_ : List Nat) => x + 1) 3 []
        ⟨0, 0, 1, 1⟩).map (fun r => r.2.2.2.2) =
      Except.ok (((1 : ℚ) - 0) * 15 / ((2 : Nat) : ℚ)) :=
  avg_energy_cancels_wall (fun (x : Nat) (_ : List Nat) => x + 1) 3 [] 2 15
    ⟨0, 0, 1, 1⟩ (by decide) (by norm_num)

end SoftwarePower
